import Mathlib

/-!
Verification of the layer-graph execution engine of cuda-convnet
(src/trunk/src/layer.cu) against its natural-language specification.

The engine is embedded shallowly:

* matrices of the tensor backend (NVMatrix) become total functions
  `Nat → Nat → ℚ` with explicit dimension parameters where a reduction
  or an inner product needs one;
* the per-layer synchronization counters (`_rcvdFInputs`,
  `_rcvdBInputs`) become explicit state records and the member
  functions of `Layer` become state transformers on them;
* the layer graph becomes an arena `Nat → LayerC` of layer records
  holding the `_prev`/`_next` adjacency index lists;
* exceptions (`throw string(...)`) become `Except String`.

Each definition cites the member function of layer.cu it embeds.
Backend kernels that live outside layer.cu (NVMatrix algebra, the
layer_kernels.cuh gradient kernels) are modelled from the
specification and say so in their doc comment.
-/

/-- A dense 2-D rational matrix, indexed (row, column).  Dimensions are
kept outside the type; reductions take the relevant extent as an
explicit argument. -/
def GMat : Type := Nat → Nat → ℚ

instance : Add GMat := ⟨fun A B i j => A i j + B i j⟩

instance : Zero GMat := ⟨fun _ _ => 0⟩

instance : AddCommMonoid GMat where
  add_assoc A B C := by funext i j; exact add_assoc (A i j) (B i j) (C i j)
  zero_add A := by funext i j; exact zero_add (A i j)
  add_zero A := by funext i j; exact add_zero (A i j)
  add_comm A B := by funext i j; exact add_comm (A i j) (B i j)
  nsmul := nsmulRec

theorem GMat.add_apply (A B : GMat) (i j : Nat) : (A + B) i j = A i j + B i j := rfl

/-- Modelled from the spec: matrix multiply of the tensor backend
(§6, "dense 2-D buffer type supporting matrix multiply").  `k` is the
inner (shared) dimension. -/
def matMul (k : Nat) (A B : GMat) : GMat :=
  fun i j => ∑ t ∈ Finset.range k, A i t * B t j

/-- Modelled from the spec: the backend's logical transpose view (§6). -/
def matT (A : GMat) : GMat := fun i j => A j i

/-- Modelled from the spec: the backend's column reduction
`v.sum(0, target)` — sum over the `rows` rows of each column (§6,
"row/column reduction"). -/
def colSum (rows : Nat) (v : GMat) : Nat → ℚ :=
  fun j => ∑ i ∈ Finset.range rows, v i j

/-- Modelled from the spec: the backend's product-accumulate
`target.addProduct(a, b, scaleThis, scaleAB)` — §6, "product-accumulate
(with scale factors for the existing-contents vs. new-contribution
terms)".  `k` is the inner dimension of the product. -/
def NVMatrix.addProduct (target : GMat) (k : Nat) (a b : GMat)
    (scaleThis scaleAB : ℚ) : GMat :=
  fun i j => scaleThis * target i j + scaleAB * matMul k a b i j

/-- The PASS_TYPE enumeration: training, evaluation, and
gradient-checking passes. -/
inductive PassType
  | train
  | test
  | gc
deriving DecidableEq

/-!
## Forward fan-in protocol (Layer::fprop, lines 71–99)

`Layer::fprop(PASS_TYPE)` increments `_rcvdFInputs`; when the counter
equals `_prev.size()` it gathers the predecessors' activations and
calls `fprop(v, passType)`, which performs `fpropActs` and then
`fpropNext` (propagation to every successor).  The per-call effect on
the counter, together with a flag recording whether the kind-specific
forward computation (and the propagation to successors) fired on this
call, is:
-/

/-- One `Layer::fprop(passType)` call (lines 71–80): increment the
forward fan-in counter; fire `fprop(v, passType)` — i.e. `fpropActs`
plus `fpropNext` — exactly when the new counter value equals the
number of predecessors.  (Line 92 re-assigns `_rcvdFInputs =
_prev.size()`, which is the value it already has on this path.) -/
def Layer.fpropCall (numPrev : Nat) (rcvdFInputs : Nat) : Nat × Bool :=
  (rcvdFInputs + 1, decide (rcvdFInputs + 1 = numPrev))

/-- Run a whole pass of per-edge `forward(pass)` deliveries.  `order`
lists the delivering predecessors (their identities, of arbitrary
type, are ignored by the code: the counter records only how many
arrived).  Starts from the state `reset()` leaves (counter 0, line
140) and records, per call, whether the forward computation fired. -/
def Layer.fpropRun (numPrev : Nat) (order : List α) : Nat × List Bool :=
  order.foldl
    (fun st _ =>
      let c := Layer.fpropCall numPrev st.1
      (c.1, st.2 ++ [c.2]))
    (0, [])

/-!
## Backward fan-in protocol (Layer::bprop, lines 101–106, 160–162)

`Layer::bprop(PASS_TYPE)` fires the backward computation —
`bpropCommon`, the per-predecessor `bpropActs` input gradients, and
`bpropWeights` — only when `_rcvdBInputs` equals
`_numGradProducersNext`, and then increments the counter once more to
guard against double firing.  The counter itself is advanced by
successors through `incRcvdBInputs`.  A pass interleaves the two kinds
of events:
-/

/-- An event hitting a layer during the backward pass: either a
gradient-producing successor contributed (`Layer::incRcvdBInputs`,
lines 160–162) or `Layer::bprop(passType)` was invoked on the layer
(lines 101–106). -/
inductive BEvent
  | inc
  | call
deriving DecidableEq

/-- The layer's backward synchronization state: the `_rcvdBInputs`
counter plus an instrumentation count of how many times the backward
computation (`bprop(_actGrads, passType)`, lines 108–137) fired. -/
structure BpropCounters where
  rcvdBInputs : Nat
  fires : Nat
deriving DecidableEq

/-- `Layer::bprop(PASS_TYPE)` (lines 101–106): if `_rcvdBInputs`
equals the precomputed gradient-producing-successor count `K`,
increment it (the double-firing guard) and fire the backward
computation; otherwise do nothing. -/
def Layer.bpropCall (K : Nat) (st : BpropCounters) : BpropCounters :=
  if st.rcvdBInputs = K then
    { rcvdBInputs := st.rcvdBInputs + 1, fires := st.fires + 1 }
  else
    st

/-- `Layer::incRcvdBInputs` (lines 160–162). -/
def Layer.incRcvdBInputs (st : BpropCounters) : BpropCounters :=
  { st with rcvdBInputs := st.rcvdBInputs + 1 }

/-- Dispatch one backward-pass event. -/
def bpropStep (K : Nat) (st : BpropCounters) : BEvent → BpropCounters
  | BEvent.inc => Layer.incRcvdBInputs st
  | BEvent.call => Layer.bpropCall K st

/-- Run a sequence of backward-pass events from the state `reset()`
leaves (both counters 0, lines 139–142). -/
def bpropRun (K : Nat) (evs : List BEvent) : BpropCounters :=
  evs.foldl (bpropStep K) { rcvdBInputs := 0, fires := 0 }

/-!
## Gradient accumulation policy
(Layer::bprop lines 118–125, FCLayer::bpropActs lines 276–284)

Each gradient-producing successor writes its contribution into the
predecessor's `_actGrads` buffer — overwriting when the predecessor's
`_rcvdBInputs` is still 0, accumulating otherwise — and only then does
`Layer::bprop` increment the predecessor's counter (line 122).
-/

/-- The backward-pass view of the target predecessor: its
`_rcvdBInputs` counter together with its `_actGrads` buffer.  The
buffer lives in an arbitrary commutative additive monoid so the policy
covers every `bpropActs` implementation (dense products, convolution,
pooling, normalization — all select overwrite vs. accumulate the same
way). -/
structure BwdTarget (M : Type) where
  rcvdBInputs : Nat
  actGrads : M

/-- One successor's contribution to a predecessor, followed by the
`incRcvdBInputs` of Layer::bprop line 122: overwrite the gradient
buffer when the counter is 0 (`scaleTargets = 0` / `rightMult`),
accumulate otherwise (`scaleTargets = 1` / `addProduct`), and
increment the counter only after the write. -/
def contribApply {M : Type} [AddCommMonoid M] (st : BwdTarget M) (c : M) : BwdTarget M :=
  { rcvdBInputs := st.rcvdBInputs + 1,
    actGrads := if st.rcvdBInputs = 0 then c else st.actGrads + c }

/-- FCLayer::bpropActs (lines 276–284): the input gradient for
predecessor `inpIdx` is `v · weightsᵀ`, written with `rightMult`
(overwrite) when the predecessor's `_rcvdBInputs` is 0 and with
`addProduct` (accumulate) otherwise.  `outDim` is the inner dimension
of the product (the layer's output width, i.e. the column count of
`v`). -/
def FCLayer.bpropActsGrad (outDim : Nat) (v w : GMat) (prevRcvdB : Nat)
    (prevActGrads : GMat) : GMat :=
  if prevRcvdB = 0 then matMul outDim v (matT w)
  else prevActGrads + matMul outDim v (matT w)

/-!
## FCLayer weight gradients (FCLayer::bpropWeights, lines 286–294)
-/

/-- The mutable pieces of one Weights group that
FCLayer::bpropWeights touches, with its scalar hyperparameters:
the increment buffer (`getInc`), the gradient buffer (`getGrads`),
the learning rate (`getEps`) and the momentum (`getMom`). -/
structure WeightGroupState where
  inc : GMat
  grads : GMat
  eps : ℚ
  mom : ℚ

/-- Default used only to totalize list indexing in statements. -/
def defaultWG : WeightGroupState :=
  { inc := 0, grads := 0, eps := 0, mom := 0 }

/-- FCLayer::bpropWeights (lines 286–294).  `numCases` is
`v.getNumRows()`, the number of rows of the incoming gradient `v`
(the batch size).  The bias gradient buffer is overwritten with the
column sums `v.sum(0, _biases.getGrads())`; for every predecessor
index the increment buffer receives
`addProduct(prevActsᵀ, v, (passType != PASS_GC) * mom,
passType == PASS_GC ? 1 : eps / numRows)`. -/
def FCLayer.bpropWeights (pass : PassType) (numCases : Nat) (v : GMat)
    (prevActsList : List GMat) (weights : List WeightGroupState)
    (biases : WeightGroupState) : List WeightGroupState × WeightGroupState :=
  let newBiases := { biases with grads := fun _ j => colSum numCases v j }
  let newWeights := List.zipWith
    (fun prevActs w =>
      let scaleThis := (if pass = PassType.gc then 0 else 1) * w.mom
      let scaleAB := if pass = PassType.gc then 1 else w.eps / (numCases : ℚ)
      let newInc := NVMatrix.addProduct w.inc numCases (matT prevActs) v scaleThis scaleAB
      { w with inc := newInc })
    prevActsList weights
  (newWeights, newBiases)

/-- Concrete incoming gradient used by witnesses: a 2×2 batch. -/
def vEx : GMat := fun i j => (i : ℚ) + 2 * j

/-- Concrete predecessor activations used by witnesses. -/
def pEx : GMat := fun i j => (i : ℚ) * j + 1

/-- Concrete weight-group state used by witnesses. -/
def wgEx : WeightGroupState :=
  { inc := fun i j => (i : ℚ) - j, grads := 0, eps := 1/100, mom := 9/10 }

/-!
## The layer arena: adjacency, type tags and buffers

The cross-layer code paths (edge insertion, the softmax/logreg
fusion) read other layers' fields through `_prev`/`_next` pointers.
The pointer graph is embedded as an arena `Nat → LayerC` of layer
records with the adjacency lists holding arena indices.
-/

/-- One layer record as seen by the cross-layer code paths: the
`_type` tag, the cost coefficient (`CostLayer::_coeff`, meaningful for
cost layers), the `_gradProducer` flag, the `_prev`/`_next` adjacency
lists (arena indices), `_numGradProducersNext`, `_rcvdBInputs`, and
the `_acts`/`_actGrads` buffers. -/
structure LayerC where
  type : String
  coeff : ℚ
  gradProducer : Bool
  prev : List Nat
  next : List Nat
  numGradProducersNext : Nat
  rcvdBInputs : Nat
  acts : GMat
  actGrads : GMat

/-- Layer::addNext (lines 164–167) applied to layer `a` of the arena:
append `b` to `a`'s successor list and add `b`'s `isGradProducer()`
(converted to 0 or 1) to `a`'s `_numGradProducersNext`. -/
def Layer.addNext (net : Nat → LayerC) (a b : Nat) : Nat → LayerC :=
  let producerInc := if (net b).gradProducer then 1 else 0
  let la := net a
  let la2 := { la with next := la.next ++ [b],
                       numGradProducersNext := la.numGradProducersNext + producerInc }
  fun i => if i = a then la2 else net i

/-- Layer::addPrev (lines 169–171) applied to layer `b` of the arena:
append `a` to `b`'s predecessor list. -/
def Layer.addPrev (net : Nat → LayerC) (b a : Nat) : Nat → LayerC :=
  let lb := net b
  let lb2 := { lb with prev := lb.prev ++ [a] }
  fun i => if i = b then lb2 else net i

/-- Modelled from the spec: the graph assembly API (§6) establishes a
directed edge from `a` to `b` by invoking `addNext` on the source
layer and `addPrev` on the target layer; the assembling caller lives
outside layer.cu. -/
def addEdge (net : Nat → LayerC) (a b : Nat) : Nat → LayerC :=
  Layer.addPrev (Layer.addNext net a b) b a

/-!
## Cost layers (CostLayer, lines 555–569)
-/

/-- CostLayer constructor line 558: `_gradProducer = _coeff != 0`. -/
def CostLayer.gradProducerInit (coeff : ℚ) : Bool :=
  decide (coeff ≠ 0)

/-- CostLayer::bprop (lines 565–569): forward to the inherited
`Layer::bprop` only when the coefficient is non-zero; otherwise do
nothing.  The inherited behavior is kept abstract as an arbitrary
transformer `layerBprop` of the whole engine state, so the coeff-0
frame property holds whatever the superclass would have done. -/
def CostLayer.bprop {σ : Type} (coeff : ℚ) (layerBprop : σ → σ) (st : σ) : σ :=
  if coeff ≠ 0 then layerBprop st else st

/-!
## Data-source layer (DataLayer, lines 432–452)
-/

/-- The per-layer state the data layer's forward entries could touch. -/
structure DataLayerState where
  rcvdFInputs : Nat
  acts : GMat

/-- DataLayer::fprop(PASS_TYPE) (lines 436–438): the driver-facing
no-argument forward entry unconditionally throws the configuration
error string. -/
def DataLayer.fpropDriver (pass : PassType) (st : DataLayerState) :
    Except String DataLayerState :=
  Except.error "No dava given!"

/-- The precondition check of the list-based base-class entry
Layer::fprop(NVMatrixV&, PASS_TYPE), line 91:
`assert(v.size() == _prev.size())`. -/
def Layer.fpropAssert (prevCount : Nat) (v : List GMat) : Except String (List GMat) :=
  if v.length = prevCount then Except.ok v
  else Except.error "assertion failed: v.size() == _prev.size()"

/-- DataLayer::fpropActs (lines 440–447): select entry `_dataIdx` of
the supplied input list.  The C++ indexing `data[_dataIdx]` is
unchecked vector indexing; the partiality is made explicit. -/
def DataLayer.fpropActs (dataIdx : Nat) (data : List GMat) : Option GMat :=
  data[dataIdx]?

/-- DataLayer::fprop(NVMatrixV&, PASS_TYPE) (lines 449–452): unlike
the base-class list entry it performs no size check — it invokes
`fpropActs` directly (and then `fpropNext`). -/
def DataLayer.fpropList (dataIdx : Nat) (data : List GMat) : Option GMat :=
  DataLayer.fpropActs dataIdx data

/-!
## Softmax backward and the logreg fusion
(SoftmaxLayer::bpropActs lines 403–412,
LogregCostLayer::bpropActs lines 605–615)
-/

/-- SoftmaxLayer::bpropActs line 404: take the fused
logistic-regression shortcut iff the softmax layer has exactly one
successor and that successor's type tag is "cost.logreg". -/
def SoftmaxLayer.doLogregGrad (net : Nat → LayerC) (s : Nat) : Bool :=
  (net s).next.length == 1 && (net ((net s).next.headD 0)).type == "cost.logreg"

/-- LogregCostLayer::bpropActs line 611: compute the explicit logreg
gradient iff the predecessor at `inpIdx` has more than one successor
or is not a softmax layer. -/
def LogregCostLayer.doWork (net : Nat → LayerC) (c inpIdx : Nat) : Bool :=
  decide (1 < (net ((net c).prev.getD inpIdx 0)).next.length)
    || decide ((net ((net c).prev.getD inpIdx 0)).type ≠ "softmax")

/-- Modelled from the spec: the fused softmax/log-likelihood kernel
`computeLogregSoftmaxGrads(labels, acts, target, add, coeff)` of
layer_kernels.cuh (not part of layer.cu): per case `i` and class `j`
the contribution is `coeff · (predicted probability − indicator(true
class))` (§4.6, §8), written into `target` under the
overwrite/accumulate policy selected by `add`.  The labels matrix
holds one class index per case, in row 0. -/
def computeLogregSoftmaxGrads (labels acts target : GMat) (add : Bool)
    (coeff : ℚ) : GMat :=
  fun i j =>
    (if add then target i j else 0)
      + coeff * (acts i j - (if labels 0 i = (j : ℚ) then 1 else 0))

/-- Modelled from the spec: the generic softmax backward kernel
`computeSoftmaxGrads(acts, v, target, add)` — the full softmax
Jacobian-vector product (§4.6): per case `i` and class `j` the
contribution is `actsᵢⱼ · (vᵢⱼ − Σₖ vᵢₖ · actsᵢₖ)`, with `classes`
the row width. -/
def computeSoftmaxGrads (acts v target : GMat) (add : Bool) (classes : Nat) : GMat :=
  fun i j =>
    (if add then target i j else 0)
      + acts i j * (v i j - ∑ k ∈ Finset.range classes, v i k * acts i k)

/-- SoftmaxLayer::bpropActs (lines 403–412): dispatch between the
fused shortcut and the generic Jacobian product, producing the new
`_actGrads` buffer of predecessor `inpIdx`.  On the fused path the
labels argument is `_next[0]->getPrev()[0]->getActs()` and the
coefficient is the cost successor's `getCoeff()`. -/
def SoftmaxLayer.bpropActs (net : Nat → LayerC) (s : Nat) (v : GMat)
    (inpIdx : Nat) (classes : Nat) : GMat :=
  let sl := net s
  let p := sl.prev.getD inpIdx 0
  let add := decide (0 < (net p).rcvdBInputs)
  if SoftmaxLayer.doLogregGrad net s then
    let costIdx := sl.next.headD 0
    let labels := (net ((net costIdx).prev.headD 0)).acts
    let gradCoeff := (net costIdx).coeff
    computeLogregSoftmaxGrads labels sl.acts ((net p).actGrads) add gradCoeff
  else
    computeSoftmaxGrads sl.acts v ((net p).actGrads) add classes

/-- A concrete four-layer arena used by witnesses and the C9
counter-instance: 0 is a fully-connected layer feeding 1, the softmax
layer, whose only successor is 2, a logistic cost layer; 3 is the
labels data layer.  The cost layer's predecessor list is ordered
[softmax, labels] — probabilities first. -/
def exNet : Nat → LayerC := fun n =>
  if n = 1 then
    { type := "softmax", coeff := 0, gradProducer := true, prev := [0], next := [2],
      numGradProducersNext := 1, rcvdBInputs := 0,
      acts := fun i j => if i = 0 ∧ j = 1 then 2 else 0, actGrads := 0 }
  else if n = 2 then
    { type := "cost.logreg", coeff := 1, gradProducer := true, prev := [1, 3], next := [],
      numGradProducersNext := 0, rcvdBInputs := 0, acts := 0, actGrads := 0 }
  else if n = 3 then
    { type := "data", coeff := 0, gradProducer := false, prev := [], next := [2],
      numGradProducersNext := 1, rcvdBInputs := 0, acts := fun _ _ => 1, actGrads := 0 }
  else
    { type := "fc", coeff := 0, gradProducer := true, prev := [], next := [1],
      numGradProducersNext := 1, rcvdBInputs := 0, acts := 0, actGrads := 0 }

/-- The same arena with the cost layer's predecessor list in the
conventional order [labels, softmax] — labels first. -/
def exNetOk : Nat → LayerC := fun n =>
  if n = 2 then
    { type := "cost.logreg", coeff := 1, gradProducer := true, prev := [3, 1], next := [],
      numGradProducersNext := 0, rcvdBInputs := 0, acts := 0, actGrads := 0 }
  else exNet n

/-!  ### Helper lemmas for the two protocols  -/

theorem fpropRun_aux (numPrev : Nat) (l : List α) (c : Nat) (fs : List Bool) :
    l.foldl
      (fun st _ =>
        let s := Layer.fpropCall numPrev st.1
        (s.1, st.2 ++ [s.2]))
      (c, fs)
    = (c + l.length,
       fs ++ (List.range l.length).map (fun k => decide (c + k + 1 = numPrev))) := by
  induction l generalizing c fs with
  | nil => simp
  | cons a l ih =>
    simp only [List.foldl_cons, List.length_cons]
    rw [ih]
    simp only [Prod.mk.injEq]
    constructor
    · simp only [Layer.fpropCall]
      omega
    · rw [List.range_succ_eq_map]
      simp only [List.map_cons, List.map_map, List.append_assoc, List.singleton_append]
      congr 1
      congr 1
      refine List.map_congr_left fun k _ => ?_
      simp only [Function.comp_apply, Layer.fpropCall]
      exact decide_eq_decide.mpr (by constructor <;> omega)

theorem range_map_decide_eq_replicate (m N : Nat) (h : ∀ k, k < m → k + 1 ≠ N) :
    (List.range m).map (fun k => decide (k + 1 = N)) = List.replicate m false := by
  induction m with
  | zero => simp
  | succ m ih =>
    rw [List.range_succ, List.map_append, List.replicate_succ']
    congr 1
    · exact ih (fun k hk => h k (Nat.lt_succ_of_lt hk))
    · simp [h m (Nat.lt_succ_self m)]

theorem bprop_invariant (K : Nat) (evs : List BEvent) (st : BpropCounters)
    (h : st.fires ≤ 1 ∧ (st.fires = 1 → K < st.rcvdBInputs)) :
    (evs.foldl (bpropStep K) st).fires ≤ 1 ∧
      ((evs.foldl (bpropStep K) st).fires = 1 →
        K < (evs.foldl (bpropStep K) st).rcvdBInputs) := by
  induction evs generalizing st with
  | nil => exact h
  | cons e evs ih =>
    apply ih
    cases e with
    | inc =>
      refine ⟨h.1, fun hf => ?_⟩
      have := h.2 hf
      simp only [bpropStep, Layer.incRcvdBInputs] at *
      omega
    | call =>
      simp only [bpropStep, Layer.bpropCall]
      by_cases hc : st.rcvdBInputs = K
      · have hf0 : st.fires = 0 := by
          rcases Nat.lt_or_ge st.fires 1 with h1 | h1
          · omega
          · have : st.fires = 1 := Nat.le_antisymm h.1 h1
            have := h.2 this
            omega
        simp only [if_pos hc, hf0]
        exact ⟨by omega, fun _ => by omega⟩
      · simp only [if_neg hc]
        exact h

theorem bprop_fires_mono (K : Nat) (evs : List BEvent) (st : BpropCounters) :
    st.fires ≤ (evs.foldl (bpropStep K) st).fires := by
  induction evs generalizing st with
  | nil => exact Nat.le_refl _
  | cons e evs ih =>
    refine Nat.le_trans ?_ (ih (bpropStep K st e))
    cases e with
    | inc => simp [bpropStep, Layer.incRcvdBInputs]
    | call =>
      simp only [bpropStep, Layer.bpropCall]
      by_cases hc : st.rcvdBInputs = K
      · simp [if_pos hc]
      · simp [if_neg hc]

/-!  ### Claim theorems for the forward and backward protocols  -/

/-- C1.  For a layer with `N ≥ 1` predecessors, after `reset()`,
across any full pass of per-edge `forward(pass)` calls — one per
predecessor, in an arbitrary order — the kind-specific forward
computation `fpropActs` (and the propagation `fpropNext` to
successors) fires exactly once, namely on the Nth call: the flag trace
is `N−1` non-firing calls followed by one firing call, independent of
the delivery order, and the counter ends at `N`. -/
theorem fprop_fires_exactly_on_nth_call (N : Nat) (order : List α)
    (hN : 1 ≤ N) (hlen : order.length = N) :
    (Layer.fpropRun N order).2 = List.replicate (N - 1) false ++ [true] ∧
      (Layer.fpropRun N order).1 = N := by
  unfold Layer.fpropRun
  rw [fpropRun_aux, hlen]
  constructor
  · obtain ⟨m, rfl⟩ : ∃ m, N = m + 1 := ⟨N - 1, by omega⟩
    rw [List.range_succ, List.map_append]
    simp only [Nat.zero_add] at *
    rw [range_map_decide_eq_replicate m (m + 1) (fun k hk => by omega)]
    simp
  · simp

/-- Witness for C1: a layer with two predecessors, delivery order
given by caller ids 7 then 3 — the computation fires on the second
call only. -/
theorem fprop_fires_exactly_on_nth_call_witness :
    (Layer.fpropRun 2 [7, 3]).2 = List.replicate 1 false ++ [true] ∧
      (Layer.fpropRun 2 [7, 3]).1 = 2 :=
  fprop_fires_exactly_on_nth_call 2 [7, 3] (by decide) (by decide)

/-- C2.  For a layer whose precomputed gradient-producing-successor
count is `K`, after `reset()`: (i) a `backward(pass)` call that finds
the counter different from `K` — before the fan-in is satisfied, or
after the computation fired — changes nothing (a no-op, not an
error); (ii) across any event interleaving the backward computation
fires at most once; (iii) a `backward(pass)` call fires precisely when
it finds the counter equal to `K`; (iv) whenever some call finds the
counter equal to `K`, the computation fires exactly once over the
whole pass. -/
theorem bprop_fires_exactly_once (K : Nat) (evs : List BEvent) :
    (∀ st : BpropCounters, st.rcvdBInputs ≠ K → Layer.bpropCall K st = st) ∧
      (bpropRun K evs).fires ≤ 1 ∧
      (∀ l : List BEvent,
        (bpropRun K (l ++ [BEvent.call])).fires
          = (bpropRun K l).fires
            + (if (bpropRun K l).rcvdBInputs = K then 1 else 0)) ∧
      ((∃ l r, evs = l ++ BEvent.call :: r ∧ (bpropRun K l).rcvdBInputs = K) →
        (bpropRun K evs).fires = 1) := by
  refine ⟨fun st hst => ?_, ?_, fun l => ?_, fun ⟨l, r, hsplit, hK⟩ => ?_⟩
  · simp [Layer.bpropCall, if_neg hst]
  · exact (bprop_invariant K evs _ ⟨Nat.zero_le 1, fun h => absurd h (by decide)⟩).1
  · unfold bpropRun
    rw [List.foldl_append]
    simp only [List.foldl_cons, List.foldl_nil, bpropStep, Layer.bpropCall]
    by_cases hc : (bpropRun K l).rcvdBInputs = K
    · unfold bpropRun at hc
      simp [if_pos hc]
    · unfold bpropRun at hc
      simp [if_neg hc]
  · have hle : (bpropRun K evs).fires ≤ 1 :=
      (bprop_invariant K evs _ ⟨Nat.zero_le 1, fun h => absurd h (by decide)⟩).1
    have hge : 1 ≤ (bpropRun K evs).fires := by
      subst hsplit
      unfold bpropRun
      rw [List.foldl_append]
      simp only [List.foldl_cons]
      refine Nat.le_trans ?_ (bprop_fires_mono K r _)
      simp only [bpropStep, Layer.bpropCall]
      unfold bpropRun at hK
      rw [if_pos hK]
      exact Nat.succ_le_succ (Nat.zero_le _)
    omega

/-- Witness for C2: `K = 1`, one successor contribution then one
`backward` call — the backward computation fires exactly once. -/
theorem bprop_fires_exactly_once_witness :
    (bpropRun 1 [BEvent.inc, BEvent.call]).fires = 1 :=
  (bprop_fires_exactly_once 1 [BEvent.inc, BEvent.call]).2.2.2
    ⟨[BEvent.inc], [], rfl, by decide⟩

/-!  ### Gradient accumulation: helper lemmas and claim theorem  -/

theorem contrib_foldl_pos {M : Type} [AddCommMonoid M] (cs : List M) (n : Nat) (g : M) :
    (cs.foldl contribApply { rcvdBInputs := n + 1, actGrads := g }).actGrads
      = g + cs.sum := by
  induction cs generalizing n g with
  | nil => simp
  | cons c cs ih =>
    simp only [List.foldl_cons, List.sum_cons]
    have hstep : contribApply { rcvdBInputs := n + 1, actGrads := g } c
        = { rcvdBInputs := n + 2, actGrads := g + c } := by
      simp [contribApply]
    rw [hstep, ih (n + 1) (g + c), add_assoc]

/-- C3.  The accumulation policy of Layer::bprop with the
`bpropActs` implementations: a successor's contribution overwrites the
predecessor's activation-gradient buffer when the predecessor's
backward fan-in counter is 0 and adds to it otherwise, the counter
being incremented only after the write; FCLayer::bpropActs is an
instance of this policy with contribution `v · weightsᵀ`; and
consequently, starting from a reset counter, the final buffer equals
the sum of all contributions, independent of the order in which the
successors fire. -/
theorem actGrads_sum_of_contributions {M : Type} [AddCommMonoid M]
    (g0 : M) (cs : List M) :
    (∀ g c : M, contribApply { rcvdBInputs := 0, actGrads := g } c
        = { rcvdBInputs := 1, actGrads := c }) ∧
    (∀ (n : Nat) (g c : M), contribApply { rcvdBInputs := n + 1, actGrads := g } c
        = { rcvdBInputs := n + 2, actGrads := g + c }) ∧
    (∀ (outDim : Nat) (v w pg : GMat) (pb : Nat),
        FCLayer.bpropActsGrad outDim v w pb pg
          = (contribApply { rcvdBInputs := pb, actGrads := pg }
              (matMul outDim v (matT w))).actGrads) ∧
    (cs ≠ [] →
      (cs.foldl contribApply { rcvdBInputs := 0, actGrads := g0 }).actGrads = cs.sum) ∧
    (∀ cs2 : List M, cs.Perm cs2 →
      (cs.foldl contribApply { rcvdBInputs := 0, actGrads := g0 }).actGrads
        = (cs2.foldl contribApply { rcvdBInputs := 0, actGrads := g0 }).actGrads) := by
  have hsum : ∀ ds : List M, ds ≠ [] →
      (ds.foldl contribApply { rcvdBInputs := 0, actGrads := g0 }).actGrads = ds.sum := by
    intro ds hds
    cases ds with
    | nil => exact absurd rfl hds
    | cons c cs =>
      simp only [List.foldl_cons, contribApply, if_pos rfl, List.sum_cons]
      exact contrib_foldl_pos cs 0 c
  refine ⟨fun g c => ?_, fun n g c => ?_, fun outDim v w pg pb => ?_, hsum cs, fun cs2 hperm => ?_⟩
  · simp [contribApply]
  · simp [contribApply]
  · cases pb with
    | zero => simp [FCLayer.bpropActsGrad, contribApply]
    | succ pb => simp [FCLayer.bpropActsGrad, contribApply]
  · cases cs with
    | nil =>
      have : cs2 = [] := by
        have := hperm.length_eq
        simpa using List.length_eq_zero.mp this.symm
      subst this
      rfl
    | cons c cs =>
      have h2 : cs2 ≠ [] := by
        intro h
        subst h
        simpa using hperm.length_eq
      rw [hsum _ (by simp), hsum cs2 h2]
      exact hperm.sum_eq

/-- Witness for C3: contributions 2 and 3 into a buffer holding stale
value 5 — the final buffer is the sum 5 = 2 + 3, in either firing
order. -/
theorem actGrads_sum_of_contributions_witness :
    ((([2, 3] : List ℚ).foldl contribApply
        { rcvdBInputs := 0, actGrads := (5 : ℚ) }).actGrads = ([2, 3] : List ℚ).sum) ∧
    ((([2, 3] : List ℚ).foldl contribApply
        { rcvdBInputs := 0, actGrads := (5 : ℚ) }).actGrads
      = (([3, 2] : List ℚ).foldl contribApply
          { rcvdBInputs := 0, actGrads := (5 : ℚ) }).actGrads) :=
  ⟨(actGrads_sum_of_contributions (5 : ℚ) [2, 3]).2.2.2.1 (by simp),
   (actGrads_sum_of_contributions (5 : ℚ) [2, 3]).2.2.2.2 [3, 2] (List.Perm.swap 3 2 [])⟩

/-!  ### FCLayer weight gradients: helper lemma and claim theorem  -/

theorem zipWith_getD {α β γ : Type} (f : α → β → γ) (as : List α) (bs : List β)
    (i : Nat) (da : α) (db : β) (dc : γ) (ha : i < as.length) (hb : i < bs.length) :
    (List.zipWith f as bs).getD i dc = f (as.getD i da) (bs.getD i db) := by
  induction as generalizing bs i with
  | nil => simp at ha
  | cons a as ih =>
    cases bs with
    | nil => simp at hb
    | cons b bs =>
      cases i with
      | zero => rfl
      | succ i =>
        simp only [List.zipWith_cons_cons, List.getD_cons_succ]
        exact ih bs i (by simpa using ha) (by simpa using hb)

/-- C5.  FCLayer::bpropWeights: for each predecessor index `i` the
weight increment becomes `momentumᵢ · incrementᵢ + (learningRateᵢ /
batchSize) · (predecessorActivationsᵢᵀ · incomingGradient)`, where the
batch size is the number of rows of the incoming gradient; during a
gradient-verification pass the momentum factor is 0 and the
learningRate/batchSize factor is 1; and the bias gradient is the
column sum of the incoming gradient. -/
theorem fc_weight_gradient_formula (pass : PassType) (numCases : Nat) (v : GMat)
    (prevActsList : List GMat) (weights : List WeightGroupState)
    (biases : WeightGroupState) (i : Nat)
    (hi : i < weights.length) (hp : i < prevActsList.length) :
    (∀ r c : Nat,
      ((FCLayer.bpropWeights pass numCases v prevActsList weights biases).1.getD
          i defaultWG).inc r c
        = (if pass = PassType.gc then 0 else (weights.getD i defaultWG).mom)
            * (weights.getD i defaultWG).inc r c
          + (if pass = PassType.gc then 1
             else (weights.getD i defaultWG).eps / (numCases : ℚ))
            * matMul numCases (matT (prevActsList.getD i 0)) v r c) ∧
    (∀ r c : Nat,
      ((FCLayer.bpropWeights pass numCases v prevActsList weights biases).2).grads r c
        = ∑ t ∈ Finset.range numCases, v t c) := by
  constructor
  · intro r c
    unfold FCLayer.bpropWeights
    rw [zipWith_getD _ prevActsList weights i 0 defaultWG defaultWG hp hi]
    simp only [NVMatrix.addProduct]
    by_cases hgc : pass = PassType.gc
    · simp [hgc]
    · simp only [if_neg hgc]
      ring
  · intro r c
    simp [FCLayer.bpropWeights, colSum]

/-- Witness for C5: one weight group on a batch of two cases, training
pass. -/
theorem fc_weight_gradient_formula_witness :
    (((FCLayer.bpropWeights PassType.train 2 vEx [pEx] [wgEx] wgEx).1.getD
        0 defaultWG).inc 1 1
      = (if PassType.train = PassType.gc then 0 else ([wgEx].getD 0 defaultWG).mom)
          * ([wgEx].getD 0 defaultWG).inc 1 1
        + (if PassType.train = PassType.gc then 1
           else ([wgEx].getD 0 defaultWG).eps / (2 : ℚ))
          * matMul 2 (matT (([pEx] : List GMat).getD 0 0)) vEx 1 1) ∧
    ((FCLayer.bpropWeights PassType.train 2 vEx [pEx] [wgEx] wgEx).2.grads 1 1
      = ∑ t ∈ Finset.range 2, vEx t 1) :=
  ⟨(fc_weight_gradient_formula PassType.train 2 vEx [pEx] [wgEx] wgEx 0
      (by simp) (by simp)).1 1 1,
   (fc_weight_gradient_formula PassType.train 2 vEx [pEx] [wgEx] wgEx 0
      (by simp) (by simp)).2 1 1⟩

/-!  ### Graph assembly, cost-layer policy, data layer  -/

/-- C8.  Adding the directed edge from `a` to `b` updates both
endpoints' adjacency lists — `b` is appended to `a`'s successor list
and `a` is appended to `b`'s predecessor list — and increments `a`'s
precomputed gradient-producing-successor count by exactly 1 when `b`
is a gradient producer and by 0 otherwise; nothing else in the arena
changes. -/
theorem addEdge_updates_both_endpoints (net : Nat → LayerC) (a b : Nat) (hab : a ≠ b) :
    (addEdge net a b a).next = (net a).next ++ [b] ∧
    (addEdge net a b b).prev = (net b).prev ++ [a] ∧
    (addEdge net a b a).numGradProducersNext
      = (net a).numGradProducersNext + (if (net b).gradProducer then 1 else 0) ∧
    (addEdge net a b a).prev = (net a).prev ∧
    (addEdge net a b b).next = (net b).next ∧
    (addEdge net a b b).numGradProducersNext = (net b).numGradProducersNext ∧
    (∀ i, i ≠ a → i ≠ b → addEdge net a b i = net i) := by
  unfold addEdge Layer.addPrev Layer.addNext
  refine ⟨?_, ?_, ?_, ?_, ?_, ?_, fun i hia hib => ?_⟩
  · simp [hab, Ne.symm hab]
  · simp [hab, Ne.symm hab]
  · simp [hab, Ne.symm hab]
  · simp [hab, Ne.symm hab]
  · simp [hab, Ne.symm hab]
  · simp [hab, Ne.symm hab]
  · simp [hia, hib]

/-- Witness for C8: inserting the edge 0 → 1 into the concrete
arena. -/
theorem addEdge_updates_both_endpoints_witness :
    (addEdge exNet 0 1 0).next = (exNet 0).next ++ [1] ∧
    (addEdge exNet 0 1 0).numGradProducersNext
      = (exNet 0).numGradProducersNext + (if (exNet 1).gradProducer then 1 else 0) :=
  ⟨(addEdge_updates_both_endpoints exNet 0 1 (by decide)).1,
   (addEdge_updates_both_endpoints exNet 0 1 (by decide)).2.2.1⟩

/-- C6.  A cost layer constructed with coefficient 0 is not a
gradient producer, so adding it as a successor of any layer leaves
that layer's gradient-producing-successor count unchanged (while still
appending it to the successor list), and its `backward(pass)` is a
no-op on the entire engine state — a policy branch, not an error. -/
theorem cost_coeff_zero_noop (coeff : ℚ) (h : coeff = 0) :
    CostLayer.gradProducerInit coeff = false ∧
    (∀ (σ : Type) (layerBprop : σ → σ) (st : σ),
      CostLayer.bprop coeff layerBprop st = st) ∧
    (∀ (net : Nat → LayerC) (a b : Nat),
      (net b).gradProducer = CostLayer.gradProducerInit coeff →
        (Layer.addNext net a b a).numGradProducersNext
            = (net a).numGradProducersNext ∧
          (Layer.addNext net a b a).next = (net a).next ++ [b]) := by
  subst h
  refine ⟨by simp [CostLayer.gradProducerInit], fun σ f st => ?_, fun net a b hb => ?_⟩
  · simp [CostLayer.bprop]
  · have hb2 : (net b).gradProducer = false := by
      simpa [CostLayer.gradProducerInit] using hb
    constructor
    · simp [Layer.addNext, hb2]
    · simp [Layer.addNext]

/-- Witness for C6: coefficient 0, the inherited backward abstracted
as the successor function on a numeric state. -/
theorem cost_coeff_zero_noop_witness :
    CostLayer.bprop (0 : ℚ) Nat.succ 5 = 5 ∧
      CostLayer.gradProducerInit (0 : ℚ) = false :=
  ⟨(cost_coeff_zero_noop 0 rfl).2.1 Nat Nat.succ 5,
   (cost_coeff_zero_noop 0 rfl).1⟩

/-- C7.  For every pass type and every starting state, the data
layer's driver-facing no-argument forward entry fails with the
configuration error and never produces a successor state: the layer's
state cannot be changed by it. -/
theorem data_layer_driver_fprop_fails (pass : PassType) (st : DataLayerState) :
    DataLayer.fpropDriver pass st = Except.error "No dava given!" ∧
    ∀ st2 : DataLayerState, DataLayer.fpropDriver pass st ≠ Except.ok st2 :=
  ⟨rfl, fun st2 h => by simp [DataLayer.fpropDriver] at h⟩

/-- C10.  The base-class list entry checks that the supplied input
list has exactly as many entries as the layer has predecessors; the
data layer's override performs no such check — it is exactly
`fpropActs`, which indexes the list at the configured data index — and
that selection is in range precisely when the list is longer than the
data index. -/
theorem data_layer_fprop_unchecked_index (prevCount dataIdx : Nat)
    (v data : List GMat) :
    ((∃ w, Layer.fpropAssert prevCount v = Except.ok w) ↔ v.length = prevCount) ∧
    (DataLayer.fpropList dataIdx data = DataLayer.fpropActs dataIdx data) ∧
    ((DataLayer.fpropList dataIdx data).isSome ↔ dataIdx < data.length) := by
  refine ⟨⟨fun ⟨w, hw⟩ => ?_, fun h => ⟨v, by simp [Layer.fpropAssert, h]⟩⟩, rfl, ?_⟩
  · by_cases h : v.length = prevCount
    · exact h
    · simp [Layer.fpropAssert, h] at hw
  · constructor
    · intro hsome
      by_contra hlt
      push_neg at hlt
      rw [DataLayer.fpropList, DataLayer.fpropActs, List.getElem?_eq_none hlt] at hsome
      simp at hsome
    · intro hlt
      simp [DataLayer.fpropList, DataLayer.fpropActs, List.getElem?_eq_getElem hlt]

/-!  ### The softmax/logreg fusion invariant  -/

/-- C4.  For a softmax layer `s` feeding a logistic cost layer `c`
(at predecessor slot `i` of `c`): the fused shortcut is taken exactly
when `s` has exactly one successor (whose tag then necessarily is
"cost.logreg"); exactly one of the softmax's fused path and the cost
layer's explicit gradient executes, never both and never neither; and
with two or more successors the fused path is never taken. -/
theorem softmax_fused_xor_cost_explicit (net : Nat → LayerC) (s c i : Nat)
    (hs : (net s).type = "softmax")
    (hc : (net c).type = "cost.logreg")
    (hmem : c ∈ (net s).next)
    (hp : (net c).prev.getD i 0 = s) :
    (SoftmaxLayer.doLogregGrad net s = true ↔ (net s).next.length = 1) ∧
    (SoftmaxLayer.doLogregGrad net s ≠ LogregCostLayer.doWork net c i) ∧
    (2 ≤ (net s).next.length → SoftmaxLayer.doLogregGrad net s = false) := by
  have hlen1 : 1 ≤ (net s).next.length :=
    List.length_pos.mpr (List.ne_nil_of_mem hmem)
  by_cases hlen : (net s).next.length = 1
  · obtain ⟨x, hx⟩ := List.length_eq_one.mp hlen
    have hcx : c = x := by
      rw [hx, List.mem_singleton] at hmem
      exact hmem
    have hx2 : (net s).next = [c] := by
      rw [hx, ← hcx]
    have hfused : SoftmaxLayer.doLogregGrad net s = true := by
      simp [SoftmaxLayer.doLogregGrad, hx2, hc]
    have hwork : LogregCostLayer.doWork net c i = false := by
      simp only [LogregCostLayer.doWork, hp]
      simp [hs, hx2]
    refine ⟨by simp [hfused, hlen], by simp [hfused, hwork], fun h2 => ?_⟩
    omega
  · have h2 : 2 ≤ (net s).next.length := by omega
    have hbeq : ((net s).next.length == 1) = false := by
      simpa using hlen
    have hfused : SoftmaxLayer.doLogregGrad net s = false := by
      simp [SoftmaxLayer.doLogregGrad, hbeq]
    have hgt : 1 < (net s).next.length := by omega
    have hwork : LogregCostLayer.doWork net c i = true := by
      simp only [LogregCostLayer.doWork, hp]
      simp [hgt]
    exact ⟨by simp [hfused, hlen], by simp [hfused, hwork], fun _ => hfused⟩

/-- Witness for C4: the concrete arena, softmax layer 1 with single
successor 2 of type "cost.logreg". -/
theorem softmax_fused_xor_cost_explicit_witness :
    (SoftmaxLayer.doLogregGrad exNet 1 ≠ LogregCostLayer.doWork exNet 2 0) ∧
    (SoftmaxLayer.doLogregGrad exNet 1 = true ↔ (exNet 1).next.length = 1) :=
  ⟨(softmax_fused_xor_cost_explicit exNet 1 2 0 (by decide) (by decide)
      (by decide) (by decide)).2.1,
   (softmax_fused_xor_cost_explicit exNet 1 2 0 (by decide) (by decide)
      (by decide) (by decide)).1⟩

/-- C9.  Whenever the softmax fused shortcut executes, the label
matrix it consumes is the activation buffer of the cost successor's
predecessor at index 0 — the fused result is expressed entirely in
terms of that layer's activations, the softmax's own output and the
cost coefficient, reading nothing from the softmax layer's own
inputs.  Consequently the fused gradient matches the labels-based
formula only when the cost layer's predecessor at index 0 is the
labels layer: in the concrete arena whose cost layer lists the
probability layer first, the fused result differs from the gradient
computed from the actual labels layer. -/
theorem softmax_fused_labels_source (net : Nat → LayerC) (s c lab : Nat)
    (v : GMat) (i classes : Nat)
    (hnext : (net s).next = [c])
    (hc : (net c).type = "cost.logreg")
    (hl : (net c).prev.headD 0 = lab) :
    (∀ r j : Nat,
      SoftmaxLayer.bpropActs net s v i classes r j
        = (if 0 < (net ((net s).prev.getD i 0)).rcvdBInputs
           then (net ((net s).prev.getD i 0)).actGrads r j else 0)
          + (net c).coeff
            * ((net s).acts r j
               - (if (net lab).acts 0 r = (j : ℚ) then 1 else 0))) ∧
    SoftmaxLayer.bpropActs exNet 1 0 0 2 0 1
      ≠ computeLogregSoftmaxGrads (exNet 3).acts (exNet 1).acts (exNet 0).actGrads
          false 1 0 1 := by
  constructor
  · intro r j
    have hfused : SoftmaxLayer.doLogregGrad net s = true := by
      simp [SoftmaxLayer.doLogregGrad, hnext, hc]
    simp only [SoftmaxLayer.bpropActs, hfused, if_true, eq_self_iff_true, hnext,
      List.headD_cons, hl, computeLogregSoftmaxGrads, decide_eq_true_eq]
  · norm_num [SoftmaxLayer.bpropActs, SoftmaxLayer.doLogregGrad,
      computeLogregSoftmaxGrads, exNet]

/-- Witness for C9: in the correctly ordered arena (labels first in
the cost layer's predecessor list) the fused gradient at case 0,
class 1 equals the labels-based formula. -/
theorem softmax_fused_labels_source_witness :
    SoftmaxLayer.bpropActs exNetOk 1 0 0 2 0 1
      = (if 0 < (exNetOk ((exNetOk 1).prev.getD 0 0)).rcvdBInputs
         then (exNetOk ((exNetOk 1).prev.getD 0 0)).actGrads 0 1 else 0)
        + (exNetOk 2).coeff
          * ((exNetOk 1).acts 0 1
             - (if (exNetOk 3).acts 0 0 = ((1 : Nat) : ℚ) then 1 else 0)) :=
  (softmax_fused_labels_source exNetOk 1 2 3 0 0 2
      (by decide) (by decide) (by decide)).1 0 1

/-- Witness for C7: the training pass on a fresh data-layer state. -/
theorem data_layer_driver_fprop_fails_witness :
    DataLayer.fpropDriver PassType.train { rcvdFInputs := 0, acts := 0 }
      = Except.error "No dava given!" :=
  (data_layer_driver_fprop_fails PassType.train { rcvdFInputs := 0, acts := 0 }).1

/-- Witness for C10: a one-entry input list with data index 0 is in
range. -/
theorem data_layer_fprop_unchecked_index_witness :
    (DataLayer.fpropList 0 [(0 : GMat)]).isSome = true :=
  (data_layer_fprop_unchecked_index 1 0 [(0 : GMat)] [(0 : GMat)]).2.2.mpr
    (by decide)
